import Mathlib

/-!
Verification development for the `rpp` tool (src/rpp.c): reverse-DNS name
construction (`ip2revdns`), RDE controller resolution from DNS TXT answers
(`rpp_getcontroller`), and the preference-advertisement wire protocol
(`advertise_inpref_to_remote_dst`), together with the `main` driver.

C character buffers are modelled as `List Char` (the allocated bytes), with
the NUL byte written explicitly; writing past the end of the allocation is a
no-op in the model.  Statuses are `Int`, matching the C `int` returns.
External effects (the DNS query and the TCP socket) are modelled by explicit
response/environment values and an event trace.
-/

set_option autoImplicit false

/-- NUL byte used as C string terminator. -/
def NUL : Char := Char.ofNat 0

/-- Decimal digit character, as produced by printf `%d`. -/
def digitChar (n : Nat) : Char := Char.ofNat (48 + n)

/-- Lowercase hexadecimal digit character, as produced by printf `%x`. -/
def hexDigit (n : Nat) : Char :=
  if n < 10 then Char.ofNat (48 + n) else Char.ofNat (87 + n)

/-- Fuelled decimal rendering of a natural number (printf `%d`). -/
def decDigitsAux : Nat → Nat → List Char
  | 0, _ => []
  | fuel + 1, n =>
    if n < 10 then [digitChar n]
    else decDigitsAux fuel (n / 10) ++ [digitChar (n % 10)]

/-- Decimal rendering of a natural number (printf `%d`). -/
def decDigits (n : Nat) : List Char := decDigitsAux (n + 1) n

/-- Decimal rendering of a C `int` (printf `%d`). -/
def intDec (i : Int) : List Char :=
  if i < 0 then '-' :: decDigits i.natAbs else decDigits i.toNat

/-- Write the bytes `s` into buffer `buf` starting at offset `off`; a write
past the end of the allocation is dropped (`List.set` is a no-op there). -/
def writeAt : List Char → Nat → List Char → List Char
  | buf, _, [] => buf
  | buf, off, c :: rest => writeAt (buf.set off c) (off + 1) rest

/-- Model of `snprintf(buf+off, size, ...)` producing the bytes `s`: writes at
most `size - 1` bytes plus a terminating NUL (nothing when `size = 0`) and
returns the untruncated length, exactly as `snprintf` does. -/
def snprintfAt (buf : List Char) (off size : Nat) (s : List Char) : List Char × Nat :=
  if size = 0 then (buf, s.length)
  else (writeAt buf off (s.take (size - 1) ++ [NUL]), s.length)

/-- Read a C string out of a buffer: the bytes before the first NUL. -/
def cstr (buf : List Char) : List Char := buf.takeWhile (fun c => c != NUL)

/-- Split a character list on `.` separators (used by the dotted-quad
parse of `inet_pton` with `AF_INET`). -/
def splitDots : List Char → List (List Char)
  | [] => [[]]
  | c :: rest =>
    if c = '.' then [] :: splitDots rest
    else
      match splitDots rest with
      | [] => [[c]]
      | g :: gs => (c :: g) :: gs

/-- Numeric value of a list of decimal digit characters. -/
def digitsVal (ds : List Char) : Nat :=
  ds.foldl (fun a c => a * 10 + (c.toNat - 48)) 0

/-- Validity of one dotted-quad octet under `inet_pton`: one to three decimal
digits, value at most 255, no leading zero on a multi-digit octet. -/
def validOctet (ds : List Char) : Bool :=
  decide (1 ≤ ds.length) && decide (ds.length ≤ 3) && ds.all (fun c => c.isDigit)
    && decide (digitsVal ds ≤ 255) && (ds.length == 1 || ds.getD 0 NUL != '0')

/-- Modelled from the C library: `inet_pton(AF_INET, s, dst)` (glibc
semantics), returning the four address bytes in network order. -/
def inet_pton4 (s : List Char) : Option (List Nat) :=
  match splitDots s with
  | [p1, p2, p3, p4] =>
    if validOctet p1 && validOctet p2 && validOctet p3 && validOctet p4 then
      some [digitsVal p1, digitsVal p2, digitsVal p3, digitsVal p4]
    else none
  | _ => none

/-- Value of a hexadecimal digit character, if any. -/
def hexVal (c : Char) : Option Nat :=
  if '0' ≤ c ∧ c ≤ '9' then some (c.toNat - 48)
  else if 'a' ≤ c ∧ c ≤ 'f' then some (c.toNat - 87)
  else if 'A' ≤ c ∧ c ≤ 'F' then some (c.toNat - 55)
  else none

/-- Modelled from the C library: the main loop of glibc `inet_pton6`.
State: accumulated bytes, position of `::` if seen, current group value,
whether the current group has digits, and the remainder after the last
colon (candidate for a trailing dotted quad).  Returns the accumulated
bytes before `::`-expansion together with the `::` position. -/
def pton6Loop : List Char → List Nat → Option Nat → Nat → Bool → List Char →
    Option (List Nat × Option Nat)
  | [], bytes, colonp, val, sawx, _ =>
    if sawx then
      if 16 < bytes.length + 2 then none
      else some (bytes ++ [val / 256, val % 256], colonp)
    else some (bytes, colonp)
  | ch :: rest, bytes, colonp, val, sawx, curtok =>
    match hexVal ch with
    | some d =>
      if 65535 < val * 16 + d then none
      else pton6Loop rest bytes colonp (val * 16 + d) true curtok
    | none =>
      if ch = ':' then
        if sawx = false then
          match colonp with
          | some _ => none
          | none => pton6Loop rest bytes (some bytes.length) 0 false rest
        else if rest = [] then none
        else if 16 < bytes.length + 2 then none
        else pton6Loop rest (bytes ++ [val / 256, val % 256]) colonp 0 false rest
      else if ch = '.' then
        if bytes.length + 4 ≤ 16 then
          match inet_pton4 curtok with
          | some quad => some (bytes ++ quad, colonp)
          | none => none
        else none
      else none

/-- Finalization of `inet_pton6`: `::`-expansion to 16 bytes. -/
def inet_pton6Core (src : List Char) : Option (List Nat) :=
  match pton6Loop src [] none 0 false src with
  | none => none
  | some (bytes, none) => if bytes.length = 16 then some bytes else none
  | some (bytes, some cp) =>
    if bytes.length = 16 then none
    else some (bytes.take cp ++ List.replicate (16 - bytes.length) 0 ++ bytes.drop cp)

/-- Modelled from the C library: `inet_pton(AF_INET6, s, dst)` (glibc
semantics), returning the sixteen address bytes in network order.  A string
starting with a single colon must start with `::`. -/
def inet_pton6 (s : List Char) : Option (List Nat) :=
  match s with
  | [] => inet_pton6Core []
  | c :: rest =>
    if c = ':' then
      match rest with
      | [] => none
      | c2 :: _ => if c2 = ':' then inet_pton6Core rest else none
    else inet_pton6Core (c :: rest)

/-- Family detection of `ip2revdns`: a literal `.` at character index 1, 2
or 3 means IPv4 (`orig[1] == '.' || orig[2] == '.' || orig[3] == '.'`). -/
def isv4det (orig : List Char) : Bool :=
  orig.getD 1 NUL == '.' || orig.getD 2 NUL == '.' || orig.getD 3 NUL == '.'

/-- Output of the IPv4 format string
`"%d.%d.%d.%d.in-addr.arpa"` applied to address bytes `q[3] q[2] q[1] q[0]`. -/
def v4str (q : List Nat) : List Char :=
  decDigits (q.getD 3 0) ++ '.' :: decDigits (q.getD 2 0) ++ '.' ::
    decDigits (q.getD 1 0) ++ '.' :: decDigits (q.getD 0 0) ++ (".in-addr.arpa").data

/-- Reverse name the spec promises for the dotted quad `a.b.c.d`:
`d.c.b.a.in-addr.arpa`. -/
def v4name (a b c d : Nat) : List Char :=
  decDigits d ++ '.' :: decDigits c ++ '.' :: decDigits b ++ '.' ::
    decDigits a ++ (".in-addr.arpa").data

/-- Nibble labels produced for a byte sequence: per byte, low nibble then
high nibble, each followed by `.` (format `"%x.%x."` on `b & 0x0F, b >> 4`). -/
def nibbles : List Nat → List Char
  | [] => []
  | b :: rest => hexDigit (b % 16) :: '.' :: hexDigit (b / 16) :: '.' :: nibbles rest

/-- IPv6 construction loop of `ip2revdns`: one snprintf of `"%x.%x."` per
byte at offset `rlen`, with the capacity check `rlen >= reslen` after each;
on capacity exhaustion returns the buffer as left by the truncated write. -/
def ip6loop : List Nat → List Char → Nat → Nat → Except (List Char) (List Char × Nat)
  | [], res, _, rlen => Except.ok (res, rlen)
  | b :: rest, res, reslen, rlen =>
    let p := snprintfAt res rlen (reslen - rlen)
      [hexDigit (b % 16), '.', hexDigit (b / 16), '.']
    if reslen ≤ rlen + p.2 then Except.error p.1
    else ip6loop rest p.1 reslen (rlen + p.2)

/-- Embedding of `ip2revdns` (src/rpp.c): computes the revdns string for an
IPv4 or IPv6 address into `res` of capacity `reslen`; returns the status and
the buffer after the call.  The C `res == NULL` guard has no counterpart in
the model; `orig == NULL` is subsumed by the short-input check. -/
def ip2revdns (res : List Char) (reslen : Nat) (orig : List Char) : Int × List Char :=
  if orig.length < 4 then (-1, res.set 0 NUL)
  else if isv4det orig then
    match inet_pton4 orig with
    | none => (-1, res.set 0 NUL)
    | some q => (0, (snprintfAt res 0 reslen (v4str q)).1)
  else
    match inet_pton6 orig with
    | none => (-1, res.set 0 NUL)
    | some bytes =>
      match ip6loop bytes.reverse res reslen 0 with
      | Except.error r => (-1, r.set 0 NUL)
      | Except.ok (r, rlen) =>
        let p := snprintfAt r rlen (reslen - rlen) ("ip6.arpa").data
        if reslen ≤ rlen + p.2 then (-1, p.1.set 0 NUL) else (0, p.1)

/-- One answer record as seen by `rpp_getcontroller`: either `ns_parserr`
fails on it, or it yields rdata bytes (offset 0 is the TXT character-string
length byte). -/
inductive RecParse where
  | bad : RecParse
  | ok : List Nat → RecParse
deriving DecidableEq

/-- Outcome of the DNS interaction before the answer scan: `res_query`
failure, `ns_initparse` failure, or a parsed answer set. -/
inductive DnsResponse where
  | queryFail : DnsResponse
  | initParseFail : DnsResponse
  | answers : List RecParse → DnsResponse
deriving DecidableEq

/-- Match test of `rpp_getcontroller`: rdata bytes 1..4 are `R`,`D`,`E`,`:`.
An index past the record reads adjacent message bytes in C; the model reads 0. -/
def matchesRDE (r : List Nat) : Bool :=
  r.getD 1 0 == 82 && r.getD 2 0 == 68 && r.getD 3 0 == 69 && r.getD 4 0 == 58

/-- A raw rdata byte stored into the result char buffer. -/
def byteChr (b : Nat) : Char := Char.ofNat b

/-- Answer scan of `rpp_getcontroller`: skip non-`RDE:` records, abort with
-4 on a record parse failure, and on the first match copy
`min(rdata[0], maxres) - 4` bytes from rdata offset 5 and NUL-terminate. -/
def scanRecs : List RecParse → List Char → Int → Int × List Char
  | [], result, _ => (1, result)
  | RecParse.bad :: _, result, _ => (-4, result)
  | RecParse.ok r :: rest, result, maxres =>
    if matchesRDE r then
      let m := (if ((r.getD 0 0 : Nat) : Int) < maxres then ((r.getD 0 0 : Nat) : Int)
                else maxres) - 4
      let result2 := writeAt result 0 (((r.drop 5).take m.toNat).map byteChr)
      (0, result2.set m.toNat NUL)
    else scanRecs rest result maxres

/-- Embedding of `rpp_getcontroller` (src/rpp.c): status and result buffer
for a given DNS interaction outcome.  Statuses: 1 = no RDE record (also on
`res_query` failure), -3 = malformed response, -4 = record parse failure,
0 = success. -/
def rpp_getcontroller (result : List Char) (maxres : Int) (resp : DnsResponse) :
    Int × List Char :=
  match resp with
  | DnsResponse.queryFail => (1, result)
  | DnsResponse.initParseFail => (-3, result)
  | DnsResponse.answers recs =>
    if recs.length = 0 then (1, result)
    else scanRecs recs result maxres

/-- Environment for one `advertise` call: which of socket creation,
connect, and the five sends succeed. -/
structure NetEnv where
  socketOk : Bool
  connectOk : Bool
  send1Ok : Bool
  send2Ok : Bool
  send3Ok : Bool
  send4Ok : Bool
  send5Ok : Bool
deriving DecidableEq

/-- Observable events of one `advertise` call, in order. -/
inductive NetEvent where
  | socketCreated : NetEvent
  | connected : List Char → Nat → NetEvent
  | sent : List Char → NetEvent
  | errorPrinted : NetEvent
  | closed : NetEvent
deriving DecidableEq

/-- Bytes of `sprintf(buff, "SETINPREF %d\t", ttl)`. -/
def setinprefHeader (ttl : Int) : List Char :=
  ("SETINPREF ").data ++ intDec ttl ++ ['\t']

/-- Embedding of `advertise_inpref_to_remote_dst` (src/rpp.c): returns the
status and the event trace.  Each failed stage prints an error; a failed
send sends nothing in the model; note the connect-failure branch returns
without closing the socket, exactly as the C does. -/
def advertise_inpref_to_remote_dst (env : NetEnv) (locpreflist : List Char)
    (ttl : Int) (servstringaddr : List Char) (preflist : List Char) :
    Int × List NetEvent :=
  if env.socketOk = false then (-1, [NetEvent.errorPrinted])
  else if env.connectOk = false then
    (-2, [NetEvent.socketCreated, NetEvent.errorPrinted])
  else
    let hdr := setinprefHeader ttl
    let t0 := [NetEvent.socketCreated, NetEvent.connected servstringaddr 4343]
    if env.send1Ok = false then (-3, t0 ++ [NetEvent.errorPrinted, NetEvent.closed])
    else if env.send2Ok = false then
      (-4, t0 ++ [NetEvent.sent hdr, NetEvent.errorPrinted, NetEvent.closed])
    else if env.send3Ok = false then
      (-5, t0 ++ [NetEvent.sent hdr, NetEvent.sent locpreflist,
        NetEvent.errorPrinted, NetEvent.closed])
    else if env.send4Ok = false then
      (-6, t0 ++ [NetEvent.sent hdr, NetEvent.sent locpreflist, NetEvent.sent ['\t'],
        NetEvent.errorPrinted, NetEvent.closed])
    else if env.send5Ok = false then
      (-7, t0 ++ [NetEvent.sent hdr, NetEvent.sent locpreflist, NetEvent.sent ['\t'],
        NetEvent.sent preflist, NetEvent.errorPrinted, NetEvent.closed])
    else
      (0, t0 ++ [NetEvent.sent hdr, NetEvent.sent locpreflist, NetEvent.sent ['\t'],
        NetEvent.sent preflist, NetEvent.sent ['\r', '\n'], NetEvent.closed])

/-- Concatenation of all bytes sent in a trace. -/
def sentBytes : List NetEvent → List Char
  | [] => []
  | NetEvent.sent s :: rest => s ++ sentBytes rest
  | _ :: rest => sentBytes rest

/-- CLI action selected in `main`. -/
inductive RppAction where
  | resolve : RppAction
  | advertise : RppAction
deriving DecidableEq

/-- Console output of `main` (abstracted message kinds). -/
inductive OutMsg where
  | errRevdns : OutMsg
  | ctrlFound : List Char → OutMsg
  | noRdeEntry : OutMsg
  | errDnsFailure : Int → OutMsg
  | sendingPrefs : OutMsg
  | done : OutMsg
deriving DecidableEq

/-- Embedding of `main` (src/rpp.c) after CLI validation: CIDR stripping
into the 128-byte `prefix` buffer, revdns computation, controller
resolution, and (for the advertise action) the advertisement; returns the
exit status, console messages, and the network event trace.  `revdns0` and
`rdeaddr0` are the initial contents of the stack buffers. -/
def mainRun (action : RppAction) (prefixorg : List Char)
    (locpreflist preflist : List Char) (revdns0 rdeaddr0 : List Char)
    (dns : DnsResponse) (env : NetEnv) : Int × List OutMsg × List NetEvent :=
  let pfx := (prefixorg.takeWhile (fun c => c != '/')).take 127
  let rd := ip2revdns revdns0 128 pfx
  if rd.1 ≠ 0 then (1, [OutMsg.errRevdns], [])
  else
    let rc := rpp_getcontroller rdeaddr0 128 dns
    let msgs1 := if rc.1 = 0 then [OutMsg.ctrlFound (cstr rc.2)]
                 else if 0 < rc.1 then [OutMsg.noRdeEntry]
                 else [OutMsg.errDnsFailure rc.1]
    match action with
    | RppAction.resolve => (0, msgs1, [])
    | RppAction.advertise =>
      let adv := advertise_inpref_to_remote_dst env locpreflist 3600 (cstr rc.2) preflist
      (0, msgs1 ++ [OutMsg.sendingPrefs] ++ (if adv.1 = 0 then [OutMsg.done] else []),
        adv.2)

/-! ### Buffer lemmas -/

theorem writeAt_length (s : List Char) : ∀ (buf : List Char) (off : Nat),
    (writeAt buf off s).length = buf.length := by
  induction s with
  | nil => intro buf off; rfl
  | cons c rest ih =>
    intro buf off
    simp [writeAt, ih, List.length_set]

theorem writeAt_eq (s : List Char) : ∀ (buf : List Char) (off : Nat),
    off + s.length ≤ buf.length →
    writeAt buf off s = buf.take off ++ s ++ buf.drop (off + s.length) := by
  induction s with
  | nil =>
    intro buf off h
    simp [writeAt, List.take_append_drop]
  | cons c rest ih =>
    intro buf off h
    have hofflt : off < buf.length := by simp at h; omega
    have hset : buf.set off c = buf.take off ++ c :: buf.drop (off + 1) :=
      List.set_eq_take_cons_drop c hofflt
    have hlen2 : (off + 1) + rest.length ≤ (buf.set off c).length := by
      rw [List.length_set]; simp at h ⊢; omega
    rw [writeAt, ih (buf.set off c) (off + 1) hlen2, hset]
    have hregroup : buf.take off ++ c :: buf.drop (off + 1) =
        (buf.take off ++ [c]) ++ buf.drop (off + 1) := by simp
    have htk : (buf.take off ++ c :: buf.drop (off + 1)).take (off + 1) =
        buf.take off ++ [c] := by
      rw [hregroup]
      apply List.take_left'
      simp [List.length_take]
      omega
    have hdr : (buf.take off ++ c :: buf.drop (off + 1)).drop (off + 1 + rest.length) =
        buf.drop (off + (c :: rest).length) := by
      have hsplit : buf.take off ++ c :: buf.drop (off + 1) =
          (buf.take off ++ [c]) ++ buf.drop (off + 1) := by simp
      have hlen3 : (buf.take off ++ [c]).length = off + 1 := by
        simp [List.length_take]; omega
      rw [hsplit]
      have := @List.drop_append Char (buf.take off ++ [c]) (buf.drop (off + 1))
        rest.length
      rw [hlen3] at this
      rw [this, List.drop_drop]
      congr 1
      simp
      omega
    rw [htk, hdr]
    simp

theorem cstr_append_nul (s rest : List Char) (h : ∀ c ∈ s, c ≠ NUL) :
    cstr (s ++ NUL :: rest) = s := by
  induction s with
  | nil => simp [cstr, List.takeWhile_cons]
  | cons c t ih =>
    have hc : c ≠ NUL := h c (by simp)
    have ht : ∀ x ∈ t, x ≠ NUL := fun x hx => h x (by simp [hx])
    simp only [List.cons_append, cstr, List.takeWhile_cons]
    have : (c != NUL) = true := by simpa using hc
    rw [this]
    simp only [if_true]
    exact congrArg (c :: ·) (ih ht)

theorem set_append_left_length (l1 l2 : List Char) (x : Char) :
    (l1 ++ l2).set l1.length x = l1 ++ l2.set 0 x := by
  induction l1 with
  | nil => simp
  | cons c t ih => simp [List.set, ih]

/-! ### Characters produced by the format strings are never NUL -/

theorem digitChar_ne_nul : ∀ n, n < 10 → digitChar n ≠ NUL := by decide

theorem decDigitsAux_ne_nul : ∀ (fuel n : Nat), ∀ c ∈ decDigitsAux fuel n, c ≠ NUL := by
  intro fuel
  induction fuel with
  | zero => intro n c hc; simp [decDigitsAux] at hc
  | succ f ih =>
    intro n c hc
    by_cases h : n < 10
    · simp [decDigitsAux, h] at hc
      subst hc
      exact digitChar_ne_nul n h
    · simp [decDigitsAux, h] at hc
      rcases hc with hc | hc
      · exact ih (n / 10) c hc
      · subst hc
        exact digitChar_ne_nul (n % 10) (Nat.mod_lt _ (by omega))

theorem decDigits_ne_nul (n : Nat) : ∀ c ∈ decDigits n, c ≠ NUL :=
  decDigitsAux_ne_nul (n + 1) n

theorem hexDigit_ne_nul : ∀ n, n < 16 → hexDigit n ≠ NUL := by decide

set_option maxRecDepth 8192 in
theorem byteChr_ne_nul : ∀ b, b < 256 → 0 < b → byteChr b ≠ NUL := by decide

theorem inAddrArpa_ne_nul : ∀ c ∈ (".in-addr.arpa").data, c ≠ NUL := by decide

theorem ip6Arpa_ne_nul : ∀ c ∈ ("ip6.arpa").data, c ≠ NUL := by decide

theorem dot_ne_nul : ('.' : Char) ≠ NUL := by decide

theorem v4name_ne_nul (a b c d : Nat) : ∀ ch ∈ v4name a b c d, ch ≠ NUL := by
  simp only [v4name, List.forall_mem_append, List.forall_mem_cons]
  and_intros <;> first | exact decDigits_ne_nul _ | decide

theorem nibbles_length : ∀ bs : List Nat, (nibbles bs).length = 4 * bs.length := by
  intro bs
  induction bs with
  | nil => rfl
  | cons b rest ih => simp [nibbles, ih]; ring

theorem nibbles_ne_nul : ∀ (bs : List Nat), (∀ b ∈ bs, b < 256) →
    ∀ c ∈ nibbles bs, c ≠ NUL := by
  intro bs
  induction bs with
  | nil => intro _ c hc; simp [nibbles] at hc
  | cons b rest ih =>
    intro hb c hc
    simp only [nibbles, List.mem_cons] at hc
    rcases hc with h | h | h | h | h
    · subst h; exact hexDigit_ne_nul _ (Nat.mod_lt _ (by omega)) 
    · subst h; exact dot_ne_nul
    · subst h
      have : b / 16 < 16 := by
        have : b < 256 := hb b (by simp)
        omega
      exact hexDigit_ne_nul _ this
    · subst h; exact dot_ne_nul
    · exact ih (fun x hx => hb x (by simp [hx])) c h

/-! ### splitDots decomposition -/

theorem splitDots_ne_nil : ∀ s : List Char, splitDots s ≠ [] := by
  intro s
  induction s with
  | nil => simp [splitDots]
  | cons c rest ih =>
    by_cases h : c = '.'
    · simp [splitDots, h]
    · simp only [splitDots, if_neg h]
      cases hrest : splitDots rest with
      | nil => simp
      | cons g gs => simp

theorem splitDots_cons_cons : ∀ (s : List Char) (g g2 : List Char) (gs : List (List Char)),
    splitDots s = g :: g2 :: gs →
    ∃ t, s = g ++ '.' :: t ∧ splitDots t = g2 :: gs := by
  intro s
  induction s with
  | nil =>
    intro g g2 gs h
    simp [splitDots] at h
  | cons c rest ih =>
    intro g g2 gs h
    by_cases hc : c = '.'
    · subst hc
      simp only [splitDots, if_pos rfl] at h
      injection h with h1 h2
      exact ⟨rest, by simp [h1.symm], h2⟩
    · simp only [splitDots, if_neg hc] at h
      cases hrest : splitDots rest with
      | nil => exact absurd hrest (splitDots_ne_nil rest)
      | cons h0 hs =>
        rw [hrest] at h
        injection h with h1 h2
        subst h2
        cases g with
        | nil => simp at h1
        | cons gc gt =>
          injection h1 with hgc hgt
          subst hgc; subst hgt
          obtain ⟨t, ht1, ht2⟩ := ih h0 g2 gs hrest
          exact ⟨t, by simp [ht1], ht2⟩

theorem splitDots_singleton : ∀ (s g : List Char), splitDots s = [g] → s = g := by
  intro s
  induction s with
  | nil =>
    intro g h
    simp [splitDots] at h
    simp [h.symm]
  | cons c rest ih =>
    intro g h
    by_cases hc : c = '.'
    · subst hc
      simp only [splitDots, if_pos rfl] at h
      injection h with h1 h2
      exact absurd h2 (splitDots_ne_nil rest)
    · simp only [splitDots, if_neg hc] at h
      cases hrest : splitDots rest with
      | nil => exact absurd hrest (splitDots_ne_nil rest)
      | cons h0 hs =>
        rw [hrest] at h
        injection h with h1 h2
        subst h2
        cases g with
        | nil => simp at h1
        | cons gc gt =>
          injection h1 with hgc hgt
          subst hgc; subst hgt
          rw [ih h0 hrest]

/-! ### Dotted-quad parse facts -/

theorem getD_append_cons (l1 : List Char) (c : Char) (t : List Char) (d : Char) :
    (l1 ++ c :: t).getD l1.length d = c := by
  induction l1 with
  | nil => rfl
  | cons x xs ih => simpa using ih

theorem validOctet_facts (ds : List Char) (h : validOctet ds = true) :
    1 ≤ ds.length ∧ ds.length ≤ 3 ∧ digitsVal ds ≤ 255 := by
  simp only [validOctet, Bool.and_eq_true, decide_eq_true_eq] at h
  exact ⟨h.1.1.1.1, h.1.1.1.2, h.1.2⟩

theorem inet_pton4_shape (s : List Char) (q : List Nat) (h : inet_pton4 s = some q) :
    ∃ p1 p2 p3 p4 t1 t2 t3,
      splitDots s = [p1, p2, p3, p4] ∧
      validOctet p1 = true ∧ validOctet p2 = true ∧
      validOctet p3 = true ∧ validOctet p4 = true ∧
      q = [digitsVal p1, digitsVal p2, digitsVal p3, digitsVal p4] ∧
      s = p1 ++ '.' :: t1 ∧ t1 = p2 ++ '.' :: t2 ∧ t2 = p3 ++ '.' :: t3 ∧ t3 = p4 := by
  unfold inet_pton4 at h
  cases hsd : splitDots s with
  | nil => rw [hsd] at h; simp at h
  | cons p1 rest1 =>
    rw [hsd] at h
    cases rest1 with
    | nil => simp at h
    | cons p2 rest2 =>
      cases rest2 with
      | nil => simp at h
      | cons p3 rest3 =>
        cases rest3 with
        | nil => simp at h
        | cons p4 rest4 =>
          cases rest4 with
          | cons q5 rest5 => simp at h
          | nil =>
            by_cases hv : (validOctet p1 && validOctet p2 && validOctet p3
                && validOctet p4) = true
            · simp only [hv, if_true] at h
              simp only [Bool.and_eq_true] at hv
              obtain ⟨t1, hs1, hsd1⟩ := splitDots_cons_cons s p1 p2 [p3, p4] hsd
              obtain ⟨t2, hs2, hsd2⟩ := splitDots_cons_cons t1 p2 p3 [p4] hsd1
              obtain ⟨t3, hs3, hsd3⟩ := splitDots_cons_cons t2 p3 p4 [] hsd2
              have hs4 := splitDots_singleton t3 p4 hsd3
              exact ⟨p1, p2, p3, p4, t1, t2, t3, rfl, hv.1.1.1, hv.1.1.2, hv.1.2, hv.2,
                (Option.some.inj h).symm, hs1, hs2, hs3, hs4⟩
            · simp only [if_neg hv] at h
              simp at h

theorem inet_pton4_det (s : List Char) (q : List Nat) (h : inet_pton4 s = some q) :
    4 ≤ s.length ∧ isv4det s = true := by
  obtain ⟨p1, p2, p3, p4, t1, t2, t3, _, hv1, hv2, hv3, hv4, _, hs1, hs2, hs3, hs4⟩ :=
    inet_pton4_shape s q h
  obtain ⟨h1a, h1b, _⟩ := validOctet_facts p1 hv1
  obtain ⟨h2a, _, _⟩ := validOctet_facts p2 hv2
  obtain ⟨h3a, _, _⟩ := validOctet_facts p3 hv3
  obtain ⟨h4a, _, _⟩ := validOctet_facts p4 hv4
  have l1 : s.length = p1.length + 1 + t1.length := by
    rw [hs1]; simp only [List.length_append, List.length_cons]; omega
  have l2 : t1.length = p2.length + 1 + t2.length := by
    rw [hs2]; simp only [List.length_append, List.length_cons]; omega
  have l3 : t2.length = p3.length + 1 + t3.length := by
    rw [hs3]; simp only [List.length_append, List.length_cons]; omega
  have l4 : t3.length = p4.length := by rw [hs4]
  constructor
  · omega
  · have hdot : s.getD p1.length NUL = '.' := by
      rw [hs1]; exact getD_append_cons p1 '.' t1 NUL
    have hcase : p1.length = 1 ∨ p1.length = 2 ∨ p1.length = 3 := by omega
    simp only [isv4det, Bool.or_eq_true, beq_iff_eq]
    rcases hcase with hp | hp | hp <;> rw [hp] at hdot
    · exact Or.inl (Or.inl hdot)
    · exact Or.inl (Or.inr hdot)
    · exact Or.inr hdot

theorem inet_pton4_bounds (s : List Char) (q : List Nat) (h : inet_pton4 s = some q) :
    ∀ b ∈ q, b < 256 := by
  obtain ⟨p1, p2, p3, p4, _, _, _, _, hv1, hv2, hv3, hv4, hq, _, _, _, _⟩ :=
    inet_pton4_shape s q h
  subst hq
  intro b hb
  simp only [List.mem_cons, List.not_mem_nil, or_false] at hb
  rcases hb with hb | hb | hb | hb <;> subst hb
  · have := (validOctet_facts p1 hv1).2.2; omega
  · have := (validOctet_facts p2 hv2).2.2; omega
  · have := (validOctet_facts p3 hv3).2.2; omega
  · have := (validOctet_facts p4 hv4).2.2; omega

/-! ### IPv6 construction loop -/

theorem snprintfAt_length (buf : List Char) (off size : Nat) (s : List Char) :
    (snprintfAt buf off size s).1.length = buf.length := by
  unfold snprintfAt
  split
  · rfl
  · simp [writeAt_length]

theorem ip6loop_ok : ∀ (bs : List Nat) (res : List Char) (reslen rlen : Nat),
    bs ≠ [] → rlen + 4 * bs.length < reslen → reslen ≤ res.length →
    ip6loop bs res reslen rlen =
      Except.ok (res.take rlen ++ nibbles bs ++ NUL :: res.drop (rlen + 4 * bs.length + 1),
        rlen + 4 * bs.length) := by
  intro bs
  induction bs with
  | nil => intro res reslen rlen hne _ _; exact absurd rfl hne
  | cons b rest ih =>
    intro res reslen rlen _ hlt hbuf
    have hlen5 : rlen + 5 ≤ reslen := by
      simp only [List.length_cons] at hlt; omega
    have hszpos : reslen - rlen ≠ 0 := by omega
    have htake : ([hexDigit (b % 16), '.', hexDigit (b / 16), '.']).take (reslen - rlen - 1)
        = [hexDigit (b % 16), '.', hexDigit (b / 16), '.'] := by
      apply List.take_of_length_le; simp; omega
    have hwr : rlen + 5 ≤ res.length := by omega
    have hB1 : (snprintfAt res rlen (reslen - rlen)
          [hexDigit (b % 16), '.', hexDigit (b / 16), '.']) =
        (res.take rlen ++ ([hexDigit (b % 16), '.', hexDigit (b / 16), '.'] ++ [NUL])
          ++ res.drop (rlen + 5), 4) := by
      unfold snprintfAt
      rw [if_neg hszpos, htake]
      rw [writeAt_eq _ res rlen (by simp; omega)]
      simp
    simp only [ip6loop, hB1]
    rw [if_neg (by simp only [List.length_cons] at hlt ⊢; omega)]
    cases hrest : rest with
    | nil =>
      subst hrest
      simp only [ip6loop]
      refine congrArg Except.ok ?_
      have e1 : rlen + 4 * ([b] : List Nat).length = rlen + 4 := by simp
      rw [e1]
      have e2 : rlen + 4 + 1 = rlen + 5 := by omega
      rw [e2]
      simp [nibbles]
    | cons b2 rest2 =>
      rw [← hrest]
      have hne2 : rest ≠ [] := by rw [hrest]; exact List.cons_ne_nil _ _
      have hlt2 : (rlen + 4) + 4 * rest.length < reslen := by
        simp only [List.length_cons] at hlt; omega
      have hbuf2 : reslen ≤ (res.take rlen ++ ([hexDigit (b % 16), '.', hexDigit (b / 16), '.']
          ++ [NUL]) ++ res.drop (rlen + 5)).length := by
        simp [List.length_take, List.length_drop]
        omega
      rw [ih _ reslen (rlen + 4) hne2 hlt2 hbuf2]
      have htklen : (res.take rlen).length = rlen := by
        simp [List.length_take]; omega
      have hgrp1 : res.take rlen ++ ([hexDigit (b % 16), '.', hexDigit (b / 16), '.'] ++ [NUL])
          ++ res.drop (rlen + 5) =
          (res.take rlen ++ [hexDigit (b % 16), '.', hexDigit (b / 16), '.'])
            ++ (NUL :: res.drop (rlen + 5)) := by
        simp
      have htk : (res.take rlen ++ ([hexDigit (b % 16), '.', hexDigit (b / 16), '.'] ++ [NUL])
          ++ res.drop (rlen + 5)).take (rlen + 4) =
          res.take rlen ++ [hexDigit (b % 16), '.', hexDigit (b / 16), '.'] := by
        rw [hgrp1]
        apply List.take_left'
        simp [htklen]
      have hgrp2 : res.take rlen ++ ([hexDigit (b % 16), '.', hexDigit (b / 16), '.'] ++ [NUL])
          ++ res.drop (rlen + 5) =
          (res.take rlen ++ [hexDigit (b % 16), '.', hexDigit (b / 16), '.'] ++ [NUL])
            ++ res.drop (rlen + 5) := by
        simp
      have hpfxlen : (res.take rlen ++ [hexDigit (b % 16), '.', hexDigit (b / 16), '.']
          ++ [NUL]).length = rlen + 5 := by
        simp [htklen]
      have hdr : (res.take rlen ++ ([hexDigit (b % 16), '.', hexDigit (b / 16), '.'] ++ [NUL])
          ++ res.drop (rlen + 5)).drop (rlen + 4 + 4 * rest.length + 1) =
          res.drop (rlen + 4 * (rest.length + 1) + 1) := by
        rw [hgrp2]
        have he : rlen + 4 + 4 * rest.length + 1 = (rlen + 5) + 4 * rest.length := by omega
        rw [he, ← hpfxlen, List.drop_append, List.drop_drop]
        congr 1
        omega
      rw [htk, hdr]
      refine congrArg Except.ok ?_
      simp only [List.length_cons]
      have e3 : rlen + 4 * (rest.length + 1) = rlen + 4 + 4 * rest.length := by omega
      rw [e3]
      simp [nibbles, List.append_assoc]

theorem ip6loop_err : ∀ (bs : List Nat) (res : List Char) (reslen rlen : Nat),
    bs ≠ [] → reslen ≤ rlen + 4 * bs.length →
    ∃ r, ip6loop bs res reslen rlen = Except.error r ∧ r.length = res.length := by
  intro bs
  induction bs with
  | nil => intro res reslen rlen hne _; exact absurd rfl hne
  | cons b rest ih =>
    intro res reslen rlen _ hle
    simp only [ip6loop]
    by_cases hc : reslen ≤ rlen + (snprintfAt res rlen (reslen - rlen)
        [hexDigit (b % 16), '.', hexDigit (b / 16), '.']).2
    · rw [if_pos hc]
      exact ⟨_, rfl, snprintfAt_length res rlen (reslen - rlen) _⟩
    · rw [if_neg hc]
      have hp2 : (snprintfAt res rlen (reslen - rlen)
          [hexDigit (b % 16), '.', hexDigit (b / 16), '.']).2 = 4 := by
        unfold snprintfAt; split <;> rfl
      rw [hp2] at hc ⊢
      have hne2 : rest ≠ [] := by
        intro hr
        rw [hr] at hle
        simp at hle
        omega
      have hle2 : reslen ≤ (rlen + 4) + 4 * rest.length := by
        simp only [List.length_cons] at hle; omega
      obtain ⟨r, hr1, hr2⟩ := ih (snprintfAt res rlen (reslen - rlen)
        [hexDigit (b % 16), '.', hexDigit (b / 16), '.']).1 reslen (rlen + 4) hne2 hle2
      exact ⟨r, hr1, by rw [hr2, snprintfAt_length]⟩

/-! ### inet_pton6 output facts -/

theorem pton6Loop_inv : ∀ (src : List Char) (bytes : List Nat) (colonp : Option Nat)
    (val : Nat) (sawx : Bool) (curtok : List Char) (out : List Nat) (cpo : Option Nat),
    pton6Loop src bytes colonp val sawx curtok = some (out, cpo) →
    (∀ b ∈ bytes, b < 256) → bytes.length ≤ 16 → val ≤ 65535 →
    (∀ cp, colonp = some cp → cp ≤ bytes.length) →
    (∀ b ∈ out, b < 256) ∧ out.length ≤ 16 ∧ ∀ cp, cpo = some cp → cp ≤ out.length := by
  intro src
  induction src with
  | nil =>
    intro bytes colonp val sawx curtok out cpo h hb hl hv hcp
    simp only [pton6Loop] at h
    cases sawx with
    | false =>
      simp only [if_neg (by simp : ¬ (false = true))] at h
      injection h with h'
      injection h' with h1 h2
      subst h1; subst h2
      exact ⟨hb, hl, hcp⟩
    | true =>
      rw [if_pos rfl] at h
      by_cases hlen : 16 < bytes.length + 2
      · rw [if_pos hlen] at h; simp at h
      · rw [if_neg hlen] at h
        injection h with h'
        injection h' with h1 h2
        subst h1; subst h2
        refine ⟨?_, by simp; omega, ?_⟩
        · intro b hbm
          simp only [List.mem_append, List.mem_cons, List.not_mem_nil, or_false] at hbm
          rcases hbm with hbm | hbm | hbm
          · exact hb b hbm
          · subst hbm; omega
          · subst hbm; omega
        · intro cp hc
          have := hcp cp hc
          simp
          omega
  | cons ch rest ih =>
    intro bytes colonp val sawx curtok out cpo h hb hl hv hcp
    simp only [pton6Loop] at h
    cases hhv : hexVal ch with
    | some d =>
      rw [hhv] at h
      simp only at h
      by_cases hov : 65535 < val * 16 + d
      · rw [if_pos hov] at h; simp at h
      · rw [if_neg hov] at h
        exact ih bytes colonp (val * 16 + d) true curtok out cpo h hb hl (by omega) hcp
    | none =>
      rw [hhv] at h
      simp only at h
      by_cases hcolon : ch = ':'
      · rw [if_pos hcolon] at h
        cases sawx with
        | false =>
          simp only [if_pos rfl] at h
          cases hcv : colonp with
          | some cp0 => rw [hcv] at h; simp at h
          | none =>
            rw [hcv] at h
            exact ih bytes (some bytes.length) 0 false rest out cpo h hb hl (by omega)
              (by intro cp hc; injection hc with hc; omega)
        | true =>
          simp only [if_neg (by simp : ¬ (true = false))] at h
          by_cases hre : rest = []
          · rw [if_pos hre] at h; simp at h
          · rw [if_neg hre] at h
            by_cases hlen : 16 < bytes.length + 2
            · rw [if_pos hlen] at h; simp at h
            · rw [if_neg hlen] at h
              refine ih (bytes ++ [val / 256, val % 256]) colonp 0 false rest out cpo h
                ?_ (by simp; omega) (by omega) ?_
              · intro b hbm
                simp only [List.mem_append, List.mem_cons, List.not_mem_nil, or_false] at hbm
                rcases hbm with hbm | hbm | hbm
                · exact hb b hbm
                · subst hbm; omega
                · subst hbm; omega
              · intro cp hc
                have := hcp cp hc
                simp
                omega
      · rw [if_neg hcolon] at h
        by_cases hdotc : ch = '.'
        · rw [if_pos hdotc] at h
          by_cases hlen : bytes.length + 4 ≤ 16
          · rw [if_pos hlen] at h
            cases hq : inet_pton4 curtok with
            | none => rw [hq] at h; simp at h
            | some quad =>
              rw [hq] at h
              injection h with h'
              injection h' with h1 h2
              subst h1; subst h2
              have hql : quad.length = 4 := by
                obtain ⟨p1, p2, p3, p4, _, _, _, _, _, _, _, _, hqe, _, _, _, _⟩ :=
                  inet_pton4_shape curtok quad hq
                rw [hqe]; rfl
              refine ⟨?_, by simp [hql]; omega, ?_⟩
              · intro b hbm
                rcases List.mem_append.1 hbm with hbm | hbm
                · exact hb b hbm
                · exact inet_pton4_bounds curtok quad hq b hbm
              · intro cp hc
                have := hcp cp hc
                simp
                omega
          · rw [if_neg hlen] at h; simp at h
        · rw [if_neg hdotc] at h; simp at h

theorem inet_pton6Core_spec (src : List Char) (bs : List Nat)
    (h : inet_pton6Core src = some bs) :
    bs.length = 16 ∧ ∀ b ∈ bs, b < 256 := by
  unfold inet_pton6Core at h
  cases hp : pton6Loop src [] none 0 false src with
  | none => rw [hp] at h; simp at h
  | some pr =>
    rw [hp] at h
    obtain ⟨out, cpo⟩ := pr
    have hinv := pton6Loop_inv src [] none 0 false src out cpo hp
      (by intro b hb; simp at hb) (by simp) (by omega) (by intro cp hc; simp at hc)
    obtain ⟨hbnd, hlen, hcp⟩ := hinv
    cases cpo with
    | none =>
      simp only at h
      by_cases h16 : out.length = 16
      · rw [if_pos h16] at h
        injection h with h'
        subst h'
        exact ⟨h16, hbnd⟩
      · rw [if_neg h16] at h; simp at h
    | some cp =>
      simp only at h
      by_cases h16 : out.length = 16
      · rw [if_pos h16] at h; simp at h
      · rw [if_neg h16] at h
        injection h with h'
        subst h'
        have hcple : cp ≤ out.length := hcp cp rfl
        constructor
        · simp only [List.length_append, List.length_take, List.length_replicate,
            List.length_drop]
          omega
        · intro b hbm
          simp only [List.mem_append] at hbm
          rcases hbm with (hbm | hbm) | hbm
          · exact hbnd b (List.mem_of_mem_take hbm)
          · have := List.eq_of_mem_replicate hbm
            omega
          · exact hbnd b (List.mem_of_mem_drop hbm)

theorem inet_pton6_spec (s : List Char) (bs : List Nat) (h : inet_pton6 s = some bs) :
    bs.length = 16 ∧ ∀ b ∈ bs, b < 256 := by
  cases s with
  | nil =>
    simp only [inet_pton6] at h
    exact inet_pton6Core_spec [] bs h
  | cons c rest =>
    simp only [inet_pton6] at h
    by_cases hc : c = ':'
    · rw [if_pos hc] at h
      cases rest with
      | nil => simp at h
      | cons c2 rest2 =>
        dsimp only at h
        by_cases hc2 : c2 = ':'
        · rw [if_pos hc2] at h
          exact inet_pton6Core_spec _ bs h
        · rw [if_neg hc2] at h; simp at h
    · rw [if_neg hc] at h
      exact inet_pton6Core_spec _ bs h

/-! ### ip2revdns path lemmas -/

theorem ip2revdns_v4_full (orig res : List Char) (reslen : Nat) (q : List Nat)
    (hp : inet_pton4 orig = some q)
    (hcap : (v4str q).length < reslen) (hbuf : reslen ≤ res.length) :
    ip2revdns res reslen orig =
      (0, v4str q ++ NUL :: res.drop ((v4str q).length + 1)) := by
  obtain ⟨hlen4, hdet⟩ := inet_pton4_det orig q hp
  unfold ip2revdns
  rw [if_neg (by omega), if_pos hdet, hp]
  dsimp only
  unfold snprintfAt
  rw [if_neg (by omega)]
  have htake : (v4str q).take (reslen - 1) = v4str q :=
    List.take_of_length_le (by omega)
  rw [htake, writeAt_eq _ res 0 (by simp; omega)]
  simp

theorem ip2revdns_v4_trunc (orig res : List Char) (reslen : Nat) (q : List Nat)
    (hp : inet_pton4 orig = some q)
    (hcap : reslen ≤ (v4str q).length) (hpos : 1 ≤ reslen) (hbuf : reslen ≤ res.length) :
    ip2revdns res reslen orig =
      (0, (v4str q).take (reslen - 1) ++ NUL :: res.drop reslen) := by
  obtain ⟨hlen4, hdet⟩ := inet_pton4_det orig q hp
  unfold ip2revdns
  rw [if_neg (by omega), if_pos hdet, hp]
  dsimp only
  unfold snprintfAt
  rw [if_neg (by omega)]
  have hlentk : ((v4str q).take (reslen - 1)).length = reslen - 1 := by
    rw [List.length_take]
    simp
    omega
  rw [writeAt_eq _ res 0 (by simp [hlentk]; omega)]
  have e1 : 0 + (((v4str q).take (reslen - 1)) ++ [NUL]).length = reslen := by
    simp [hlentk]
    omega
  rw [e1]
  simp

theorem snprintfAt_spec (buf : List Char) (off size : Nat) (s : List Char)
    (h1 : s.length < size) (h2 : off + s.length + 1 ≤ buf.length) :
    snprintfAt buf off size s =
      (buf.take off ++ s ++ NUL :: buf.drop (off + s.length + 1), s.length) := by
  unfold snprintfAt
  rw [if_neg (by omega), List.take_of_length_le (by omega),
    writeAt_eq _ _ _ (by simp; omega)]
  have e : off + (s ++ [NUL]).length = off + s.length + 1 := by simp; omega
  rw [e]
  simp

theorem ip2revdns_v6_succ (orig res : List Char) (reslen : Nat) (bs : List Nat)
    (hlen : ¬ orig.length < 4) (hdet : isv4det orig = false)
    (hp : inet_pton6 orig = some bs) (hcap : 73 ≤ reslen) (hbuf : reslen ≤ res.length) :
    ip2revdns res reslen orig =
      (0, nibbles bs.reverse ++ ("ip6.arpa").data ++ NUL :: res.drop 73) := by
  have hspec := inet_pton6_spec orig bs hp
  have hrevlen : bs.reverse.length = 16 := by rw [List.length_reverse]; exact hspec.1
  have hrevne : bs.reverse ≠ [] := by
    intro h0; rw [h0] at hrevlen; simp at hrevlen
  have hniblen : (nibbles bs.reverse).length = 64 := by
    rw [nibbles_length, hrevlen]
  have hdata : ("ip6.arpa").data.length = 8 := by rfl
  unfold ip2revdns
  rw [if_neg hlen, if_neg (by simp [hdet]), hp]
  dsimp only
  have hloop := ip6loop_ok bs.reverse res reslen 0 hrevne (by rw [hrevlen]; omega) hbuf
  rw [hrevlen] at hloop
  norm_num at hloop
  rw [hloop]
  dsimp only
  have hB1len : (nibbles bs.reverse ++ NUL :: res.drop 65).length = res.length := by
    simp [hniblen]
    omega
  rw [snprintfAt_spec _ 64 (reslen - 64) _ (by rw [hdata]; omega)
    (by rw [hB1len, hdata]; omega)]
  rw [hdata]
  rw [if_neg (by omega)]
  have htk64 : (nibbles bs.reverse ++ NUL :: res.drop 65).take 64 = nibbles bs.reverse := by
    rw [List.take_append_of_le_length (by rw [hniblen])]
    exact List.take_of_length_le (by rw [hniblen])
  have hB1 : nibbles bs.reverse ++ NUL :: res.drop 65 =
      (nibbles bs.reverse ++ [NUL]) ++ res.drop 65 := by simp
  have hpfx65 : (nibbles bs.reverse ++ [NUL]).length = 65 := by simp [hniblen]
  have hdr : (nibbles bs.reverse ++ NUL :: res.drop 65).drop (64 + 8 + 1) = res.drop 73 := by
    rw [hB1]
    have he : (64 + 8 + 1 : Nat) = (nibbles bs.reverse ++ [NUL]).length + 8 := by
      rw [hpfx65]
    rw [he, List.drop_append, List.drop_drop]
  rw [htk64, hdr]

theorem ip2revdns_v6_cap_err (orig res : List Char) (reslen : Nat) (bs : List Nat)
    (hlen : ¬ orig.length < 4) (hdet : isv4det orig = false)
    (hp : inet_pton6 orig = some bs) (hcap : reslen ≤ 72) (hbuf : reslen ≤ res.length)
    (hres : 0 < res.length) :
    ∃ t, ip2revdns res reslen orig = (-1, NUL :: t) ∧ (NUL :: t).length = res.length := by
  have hspec := inet_pton6_spec orig bs hp
  have hrevlen : bs.reverse.length = 16 := by rw [List.length_reverse]; exact hspec.1
  have hrevne : bs.reverse ≠ [] := by
    intro h0; rw [h0] at hrevlen; simp at hrevlen
  have hniblen : (nibbles bs.reverse).length = 64 := by
    rw [nibbles_length, hrevlen]
  unfold ip2revdns
  rw [if_neg hlen, if_neg (by simp [hdet]), hp]
  dsimp only
  by_cases hc64 : reslen ≤ 64
  · obtain ⟨r, hr1, hr2⟩ := ip6loop_err bs.reverse res reslen 0 hrevne
      (by rw [hrevlen]; omega)
    rw [hr1]
    dsimp only
    cases r with
    | nil => rw [← hr2] at hres; simp at hres
    | cons c t =>
      exact ⟨t, rfl, by rw [← hr2]; rfl⟩
  · have hloop := ip6loop_ok bs.reverse res reslen 0 hrevne (by rw [hrevlen]; omega) hbuf
    rw [hrevlen] at hloop
    norm_num at hloop
    rw [hloop]
    dsimp only
    have hp2 : (snprintfAt (nibbles bs.reverse ++ NUL :: res.drop 65) 64 (reslen - 64)
        ("ip6.arpa").data).2 = ("ip6.arpa").data.length := by
      unfold snprintfAt; split <;> rfl
    rw [if_pos (by rw [hp2]; change reslen ≤ 64 + 8; omega)]
    have hB1len : (nibbles bs.reverse ++ NUL :: res.drop 65).length = res.length := by
      simp [hniblen]
      omega
    have hslen : (snprintfAt (nibbles bs.reverse ++ NUL :: res.drop 65) 64 (reslen - 64)
        ("ip6.arpa").data).1.length = res.length := by
      rw [snprintfAt_length, hB1len]
    cases hsb : (snprintfAt (nibbles bs.reverse ++ NUL :: res.drop 65) 64 (reslen - 64)
        ("ip6.arpa").data).1 with
    | nil => rw [hsb] at hslen; simp at hslen; omega
    | cons c t =>
      rw [hsb] at hslen
      exact ⟨t, rfl, by rw [← hslen]; rfl⟩

/-! ### Answer-scan lemmas -/

theorem scanRecs_skip : ∀ (pre rest : List RecParse) (result : List Char) (maxres : Int),
    (∀ rec ∈ pre, ∃ r2, rec = RecParse.ok r2 ∧ matchesRDE r2 = false) →
    scanRecs (pre ++ rest) result maxres = scanRecs rest result maxres := by
  intro pre
  induction pre with
  | nil => intro rest result maxres _; rfl
  | cons p ps ih =>
    intro rest result maxres hpre
    obtain ⟨r2, hp1, hp2⟩ := hpre p (by simp)
    subst hp1
    simp only [List.cons_append, scanRecs, hp2]
    rw [if_neg (by simp [hp2])]
    exact ih rest result maxres (fun rec hr => hpre rec (by simp [hr]))

theorem scanRecs_frame : ∀ (recs : List RecParse) (result : List Char) (maxres : Int),
    (scanRecs recs result maxres).1 ≠ 0 → (scanRecs recs result maxres).2 = result := by
  intro recs
  induction recs with
  | nil => intro result maxres _; rfl
  | cons rec rest ih =>
    intro result maxres hne
    cases rec with
    | bad => rfl
    | ok r =>
      by_cases hm : matchesRDE r = true
      · exfalso
        apply hne
        simp [scanRecs, hm]
      · simp only [scanRecs, if_neg (by simp [hm] : ¬ (matchesRDE r = true))] at hne ⊢
        exact ih result maxres hne

theorem rpp_getcontroller_frame_aux (result : List Char) (maxres : Int)
    (resp : DnsResponse) (hne : (rpp_getcontroller result maxres resp).1 ≠ 0) :
    (rpp_getcontroller result maxres resp).2 = result := by
  cases resp with
  | queryFail => rfl
  | initParseFail => rfl
  | answers recs =>
    by_cases hz : recs.length = 0
    · simp [rpp_getcontroller, hz]
    · simp only [rpp_getcontroller, if_neg hz] at hne ⊢
      exact scanRecs_frame recs result maxres hne

/-! ### Advertise trace lemmas -/

theorem advertise_err_printed (env : NetEnv) (locpreflist : List Char) (ttl : Int)
    (servstringaddr preflist : List Char)
    (hne : (advertise_inpref_to_remote_dst env locpreflist ttl servstringaddr preflist).1 ≠ 0) :
    NetEvent.errorPrinted ∈
      (advertise_inpref_to_remote_dst env locpreflist ttl servstringaddr preflist).2 := by
  unfold advertise_inpref_to_remote_dst at hne ⊢
  cases h1 : env.socketOk <;> cases h2 : env.connectOk <;> cases h3 : env.send1Ok <;>
    cases h4 : env.send2Ok <;> cases h5 : env.send3Ok <;> cases h6 : env.send4Ok <;>
    cases h7 : env.send5Ok <;>
    simp [h1, h2, h3, h4, h5, h6, h7] at hne ⊢

/-! ### Claim theorems -/

/-- C1: for every valid IPv4 dotted-quad address string `a.b.c.d`, given
sufficient output capacity, `ip2revdns` succeeds and writes exactly the
string `d.c.b.a.in-addr.arpa` — the four address bytes printed in reversed
order followed by the literal suffix `in-addr.arpa`. -/
theorem ip2revdns_ipv4_reversed (orig res : List Char) (reslen : Nat) (a b c d : Nat)
    (hp : inet_pton4 orig = some [a, b, c, d])
    (hcap : (v4name a b c d).length < reslen) (hbuf : reslen ≤ res.length) :
    ∃ res2, ip2revdns res reslen orig = (0, res2) ∧ cstr res2 = v4name a b c d := by
  have hv4 : v4str [a, b, c, d] = v4name a b c d := rfl
  have hfull := ip2revdns_v4_full orig res reslen [a, b, c, d] hp
    (by rw [hv4]; exact hcap) hbuf
  rw [hv4] at hfull
  exact ⟨_, hfull, cstr_append_nul _ _ (v4name_ne_nul a b c d)⟩

/-- Witness for C1 at the spec example `203.0.113.1` →
`1.113.0.203.in-addr.arpa`. -/
theorem ip2revdns_ipv4_reversed_witness :
    ∃ res2, ip2revdns (List.replicate 64 'x') 64 (("203.0.113.1").data) = (0, res2) ∧
      cstr res2 = ("1.113.0.203.in-addr.arpa").data := by
  obtain ⟨res2, h1, h2⟩ := ip2revdns_ipv4_reversed (("203.0.113.1").data)
    (List.replicate 64 'x') 64 203 0 113 1 (by decide) (by decide) (by decide)
  exact ⟨res2, h1, by rw [h2]; decide⟩

set_option maxRecDepth 20000 in
/-- C2 counterexample: `::1` and `::1.2.3.4` are valid IPv6 address strings
(accepted by `inet_pton6`), yet `ip2revdns` rejects both with ample
capacity — `::1` because its length is below 4, `::1.2.3.4` because the
`.` at character index 3 makes the heuristic treat it as IPv4.  So the
claim as stated (every valid IPv6 address succeeds) is false. -/
theorem ip2revdns_ipv6_reject_cex :
    ((inet_pton6 (("::1").data)).isSome = true ∧
      (ip2revdns (List.replicate 128 'x') 128 (("::1").data)).1 = -1) ∧
    ((inet_pton6 (("::1.2.3.4").data)).isSome = true ∧
      (ip2revdns (List.replicate 128 'x') 128 (("::1.2.3.4").data)).1 = -1) := by
  decide

/-- C2 (amended): for every valid IPv6 address string of length at least 4
that the family heuristic classifies as IPv6 (no `.` at character index
1–3), given sufficient output capacity, `ip2revdns` succeeds and emits, for
byte index 15 down to 0, two hex-digit labels per byte — low nibble first,
then high nibble — each followed by `.`, and after all 32 labels the
literal suffix `ip6.arpa`. -/
theorem ip2revdns_ipv6_nibble_labels (orig res : List Char) (reslen : Nat) (bs : List Nat)
    (hlen : 4 ≤ orig.length) (hdet : isv4det orig = false)
    (hp : inet_pton6 orig = some bs) (hcap : 73 ≤ reslen) (hbuf : reslen ≤ res.length) :
    ∃ res2, ip2revdns res reslen orig = (0, res2) ∧
      cstr res2 = nibbles bs.reverse ++ ("ip6.arpa").data := by
  have h := ip2revdns_v6_succ orig res reslen bs (by omega) hdet hp hcap hbuf
  refine ⟨_, h, ?_⟩
  have hassoc : nibbles bs.reverse ++ ("ip6.arpa").data ++ NUL :: res.drop 73 =
      (nibbles bs.reverse ++ ("ip6.arpa").data) ++ NUL :: res.drop 73 := by simp
  rw [hassoc]
  apply cstr_append_nul
  intro c hc
  rcases List.mem_append.1 hc with hc | hc
  · exact nibbles_ne_nul bs.reverse
      (fun b hb => (inet_pton6_spec orig bs hp).2 b (List.mem_reverse.1 hb)) c hc
  · exact ip6Arpa_ne_nul c hc

set_option maxRecDepth 20000 in
/-- Witness for the amended C2 at `2001:db8::1`: 32 nibble labels then
`ip6.arpa`. -/
theorem ip2revdns_ipv6_nibble_labels_witness :
    ∃ res2, ip2revdns (List.replicate 128 'x') 128 (("2001:db8::1").data) = (0, res2) ∧
      cstr res2 =
        ("1.0.0.0.0.0.0.0.0.0.0.0.0.0.0.0.0.0.0.0.0.0.0.0.8.b.d.0.1.0.0.2.ip6.arpa").data := by
  obtain ⟨res2, h1, h2⟩ := ip2revdns_ipv6_nibble_labels (("2001:db8::1").data)
    (List.replicate 128 'x') 128 [32, 1, 13, 184, 0, 0, 0, 0, 0, 0, 0, 0, 0, 0, 0, 1]
    (by decide) (by decide) (by decide) (by decide) (by decide)
  exact ⟨res2, h1, by rw [h2]; decide⟩

/-- C6 counterexample: for `1.2.3.4` with capacity 5 the computed reverse
name `4.3.2.1.in-addr.arpa` (20 characters) exceeds the capacity, yet
`ip2revdns` returns 0 (success) on the IPv4 path instead of the claimed
non-zero status — the IPv4 `snprintf` result is silently truncated. -/
theorem ip2revdns_ipv4_truncation_cex :
    (v4name 1 2 3 4).length = 20 ∧ 5 ≤ (v4name 1 2 3 4).length ∧
    (ip2revdns (List.replicate 8 'x') 5 (("1.2.3.4").data)).1 = 0 := by
  decide

/-- C6 (amended): when the computed reverse name would exceed the supplied
capacity, the IPv6 construction path zeroes the output's first byte,
returns a non-zero status, and leaves the buffer length unchanged; the
IPv4 path instead truncates the name to `capacity - 1` characters and
returns success (0). -/
theorem ip2revdns_capacity_behavior (orig res : List Char) (reslen : Nat)
    (q bs : List Nat) :
    (inet_pton4 orig = some q → reslen ≤ (v4str q).length → 1 ≤ reslen →
      reslen ≤ res.length →
      ∃ res2, ip2revdns res reslen orig = (0, res2) ∧
        cstr res2 = (v4str q).take (reslen - 1)) ∧
    (¬ orig.length < 4 → isv4det orig = false → inet_pton6 orig = some bs →
      reslen ≤ 72 → reslen ≤ res.length → 0 < res.length →
      ∃ t, ip2revdns res reslen orig = (-1, NUL :: t) ∧
        (NUL :: t).length = res.length) := by
  constructor
  · intro hp hcap hpos hbuf
    have htr := ip2revdns_v4_trunc orig res reslen q hp hcap hpos hbuf
    refine ⟨_, htr, ?_⟩
    apply cstr_append_nul
    intro c hc
    have hv4 : v4str q = v4name (q.getD 0 0) (q.getD 1 0) (q.getD 2 0) (q.getD 3 0) := rfl
    have : c ∈ v4str q := List.mem_of_mem_take hc
    rw [hv4] at this
    exact v4name_ne_nul _ _ _ _ c this
  · intro hlen hdet hp hcap hbuf hres
    exact ip2revdns_v6_cap_err orig res reslen bs hlen hdet hp hcap hbuf hres

set_option maxRecDepth 20000 in
/-- Witness for the amended C6: the IPv4 truncation case at `1.2.3.4` with
capacity 5, and the IPv6 zero-and-fail case at `2001:db8::1` with
capacity 40. -/
theorem ip2revdns_capacity_behavior_witness :
    (∃ res2, ip2revdns (List.replicate 8 'x') 5 (("1.2.3.4").data) = (0, res2) ∧
      cstr res2 = ("4.3.").data) ∧
    (∃ t, ip2revdns (List.replicate 80 'x') 40 (("2001:db8::1").data) = (-1, NUL :: t) ∧
      (NUL :: t).length = 80) := by
  constructor
  · obtain ⟨res2, h1, h2⟩ := (ip2revdns_capacity_behavior (("1.2.3.4").data)
      (List.replicate 8 'x') 5 [1, 2, 3, 4] []).1 (by decide) (by decide) (by decide)
      (by decide)
    exact ⟨res2, h1, by rw [h2]; decide⟩
  · have h := (ip2revdns_capacity_behavior (("2001:db8::1").data)
      (List.replicate 80 'x') 40 [] [32, 1, 13, 184, 0, 0, 0, 0, 0, 0, 0, 0, 0, 0, 0, 1]).2
      (by decide) (by decide) (by decide) (by decide) (by decide) (by decide)
    simpa using h

/-- C7: `ip2revdns` rejects every input shorter than 4 characters with a
negative status, zeroing the output's first byte; for inputs of length at
least 4 it treats the address as IPv4 exactly when a `.` occurs at
character index 1, 2 or 3 (`isv4det`) and as IPv6 otherwise, then converts
the text under the detected family, rejecting with the same error if that
conversion fails; on conversion success the output is built by the
corresponding family's construction path. -/
theorem ip2revdns_detection (orig res : List Char) (reslen : Nat) :
    (orig.length < 4 → ip2revdns res reslen orig = (-1, res.set 0 NUL)) ∧
    (4 ≤ orig.length → isv4det orig = true → inet_pton4 orig = none →
      ip2revdns res reslen orig = (-1, res.set 0 NUL)) ∧
    (4 ≤ orig.length → isv4det orig = false → inet_pton6 orig = none →
      ip2revdns res reslen orig = (-1, res.set 0 NUL)) ∧
    (4 ≤ orig.length → isv4det orig = true → ∀ q, inet_pton4 orig = some q →
      ip2revdns res reslen orig = (0, (snprintfAt res 0 reslen (v4str q)).1)) ∧
    (4 ≤ orig.length → isv4det orig = false → ∀ bs, inet_pton6 orig = some bs →
      ip2revdns res reslen orig =
        (match ip6loop bs.reverse res reslen 0 with
         | Except.error r => (-1, r.set 0 NUL)
         | Except.ok (r, rlen) =>
           if reslen ≤ rlen + (snprintfAt r rlen (reslen - rlen) ("ip6.arpa").data).2
           then (-1, (snprintfAt r rlen (reslen - rlen) ("ip6.arpa").data).1.set 0 NUL)
           else (0, (snprintfAt r rlen (reslen - rlen) ("ip6.arpa").data).1))) := by
  refine ⟨?_, ?_, ?_, ?_, ?_⟩
  · intro h
    unfold ip2revdns
    rw [if_pos h]
  · intro h hdet hp
    unfold ip2revdns
    rw [if_neg (by omega), if_pos hdet, hp]
  · intro h hdet hp
    unfold ip2revdns
    rw [if_neg (by omega), if_neg (by simp [hdet]), hp]
  · intro h hdet q hp
    unfold ip2revdns
    rw [if_neg (by omega), if_pos hdet, hp]
  · intro h hdet bs hp
    unfold ip2revdns
    rw [if_neg (by omega), if_neg (by simp [hdet]), hp]

/-- Witness for C7: a too-short input, a misparsed IPv4-detected input, and
an IPv6-detected input that fails conversion, each rejected with the first
output byte zeroed. -/
theorem ip2revdns_detection_witness :
    ip2revdns (List.replicate 8 'x') 8 (("ab").data) =
      (-1, (List.replicate 8 'x').set 0 NUL) ∧
    ip2revdns (List.replicate 8 'x') 8 (("1.2.3").data) =
      (-1, (List.replicate 8 'x').set 0 NUL) ∧
    ip2revdns (List.replicate 8 'x') 8 (("zzzz").data) =
      (-1, (List.replicate 8 'x').set 0 NUL) :=
  ⟨(ip2revdns_detection (("ab").data) (List.replicate 8 'x') 8).1 (by decide),
   (ip2revdns_detection (("1.2.3").data) (List.replicate 8 'x') 8).2.1 (by decide)
     (by decide) (by decide),
   (ip2revdns_detection (("zzzz").data) (List.replicate 8 'x') 8).2.2.1 (by decide)
     (by decide) (by decide)⟩

theorem set_append_eq (l1 l2 : List Char) (x : Char) (n : Nat) (h : n = l1.length) :
    (l1 ++ l2).set n x = l1 ++ l2.set 0 x := by
  subst h
  exact set_append_left_length l1 l2 x

/-- C3: `rpp_getcontroller` scans answer records in server order; a record
matches exactly when its content bytes at offsets 1–4 are `R`,`D`,`E`,`:`;
non-matching records are skipped; on the first match it copies
`min(declared content length, capacity) - 4` bytes from content offset 5
into the result buffer, NUL-terminates it, and returns success immediately
— the records after the match (`post`) are arbitrary and never examined. -/
theorem rpp_getcontroller_first_match (result : List Char) (maxres : Int)
    (pre post : List RecParse) (r : List Nat)
    (hpre : ∀ rec ∈ pre, ∃ r2, rec = RecParse.ok r2 ∧ matchesRDE r2 = false)
    (hmatch : matchesRDE r = true)
    (hm : 4 ≤ min ((r.getD 0 0 : Nat) : Int) maxres)
    (hrlen : 5 + (min ((r.getD 0 0 : Nat) : Int) maxres - 4).toNat ≤ r.length)
    (hbuf : (min ((r.getD 0 0 : Nat) : Int) maxres - 4).toNat < result.length)
    (hbytes : ∀ b ∈ (r.drop 5).take (min ((r.getD 0 0 : Nat) : Int) maxres - 4).toNat,
      0 < b ∧ b < 256) :
    ∃ res2,
      rpp_getcontroller result maxres (DnsResponse.answers (pre ++ RecParse.ok r :: post))
        = (0, res2) ∧
      cstr res2 =
        ((r.drop 5).take (min ((r.getD 0 0 : Nat) : Int) maxres - 4).toNat).map byteChr := by
  unfold rpp_getcontroller
  dsimp only
  rw [if_neg (by simp)]
  rw [scanRecs_skip pre (RecParse.ok r :: post) result maxres hpre]
  simp only [scanRecs]
  rw [if_pos hmatch]
  have hifmin : (if ((r.getD 0 0 : Nat) : Int) < maxres then ((r.getD 0 0 : Nat) : Int)
      else maxres) = min ((r.getD 0 0 : Nat) : Int) maxres := by
    split
    · exact (min_eq_left (le_of_lt (by assumption))).symm
    · exact (min_eq_right (le_of_not_lt (by assumption))).symm
  rw [hifmin]
  have hplen : (((r.drop 5).take (min ((r.getD 0 0 : Nat) : Int) maxres - 4).toNat).map
      byteChr).length = (min ((r.getD 0 0 : Nat) : Int) maxres - 4).toNat := by
    rw [List.length_map, List.length_take, List.length_drop]
    omega
  rw [writeAt_eq _ result 0 (by rw [hplen]; omega)]
  simp only [List.take_zero, List.nil_append, Nat.zero_add]
  rw [hplen]
  have hdropne : result.drop (min ((r.getD 0 0 : Nat) : Int) maxres - 4).toNat ≠ [] := by
    intro h0
    have := congrArg List.length h0
    rw [List.length_drop, List.length_nil] at this
    omega
  cases hdrop : result.drop (min ((r.getD 0 0 : Nat) : Int) maxres - 4).toNat with
  | nil => exact absurd hdrop hdropne
  | cons c t =>
    rw [set_append_eq _ (c :: t) NUL _ hplen.symm]
    refine ⟨_, rfl, ?_⟩
    simp only [List.set]
    apply cstr_append_nul
    intro ch hch
    obtain ⟨b, hb, hbc⟩ := List.mem_map.1 hch
    obtain ⟨hb1, hb2⟩ := hbytes b hb
    rw [← hbc]
    exact byteChr_ne_nul b hb2 hb1

set_option maxRecDepth 20000 in
/-- Witness for C3 at the spec example: a non-matching record followed by
`RDE:198.51.100.7` (content length byte 16), capacity 128; the result is
`198.51.100.7`. -/
theorem rpp_getcontroller_first_match_witness :
    ∃ res2,
      rpp_getcontroller (List.replicate 128 'x') 128 (DnsResponse.answers
        [RecParse.ok [2, 97, 98],
         RecParse.ok [16, 82, 68, 69, 58, 49, 57, 56, 46, 53, 49, 46, 49, 48, 48, 46, 55],
         RecParse.ok [5, 82, 68, 69, 58, 90]]) = (0, res2) ∧
      cstr res2 = ("198.51.100.7").data := by
  obtain ⟨res2, h1, h2⟩ := rpp_getcontroller_first_match (List.replicate 128 'x') 128
    [RecParse.ok [2, 97, 98]] [RecParse.ok [5, 82, 68, 69, 58, 90]]
    [16, 82, 68, 69, 58, 49, 57, 56, 46, 53, 49, 46, 49, 48, 48, 46, 55]
    (by intro rec hrec
        simp only [List.mem_singleton] at hrec
        exact ⟨[2, 97, 98], hrec, by decide⟩)
    (by decide) (by decide) (by decide) (by decide) (by decide)
  exact ⟨res2, h1, by rw [h2]; decide⟩

/-- C4: `rpp_getcontroller` returns the NotFound status 1 (positive) when
the query fails, when the answer set is empty, and when no record carries
the `RDE:` tag; it returns the hard errors -3 (malformed response) and -4
(record parse failure) otherwise — and a record parse failure aborts the
scan no matter what follows it. -/
theorem rpp_getcontroller_status_taxonomy (result : List Char) (maxres : Int) :
    rpp_getcontroller result maxres DnsResponse.queryFail = (1, result) ∧
    rpp_getcontroller result maxres DnsResponse.initParseFail = (-3, result) ∧
    rpp_getcontroller result maxres (DnsResponse.answers []) = (1, result) ∧
    (∀ pre post, (∀ rec ∈ pre, ∃ r2, rec = RecParse.ok r2 ∧ matchesRDE r2 = false) →
      rpp_getcontroller result maxres (DnsResponse.answers (pre ++ RecParse.bad :: post))
        = (-4, result)) ∧
    (∀ recs, recs ≠ [] →
      (∀ rec ∈ recs, ∃ r2, rec = RecParse.ok r2 ∧ matchesRDE r2 = false) →
      rpp_getcontroller result maxres (DnsResponse.answers recs) = (1, result)) := by
  refine ⟨rfl, rfl, rfl, ?_, ?_⟩
  · intro pre post hpre
    unfold rpp_getcontroller
    dsimp only
    rw [if_neg (by simp)]
    rw [scanRecs_skip pre (RecParse.bad :: post) result maxres hpre]
    rfl
  · intro recs hne hpre
    unfold rpp_getcontroller
    dsimp only
    rw [if_neg (by simp [hne])]
    have : recs = recs ++ [] := by simp
    rw [this, scanRecs_skip recs [] result maxres hpre]
    rfl

/-- Witness for C4: each taxonomy case at concrete inputs. -/
theorem rpp_getcontroller_status_taxonomy_witness :
    rpp_getcontroller (("x").data) 128 DnsResponse.queryFail = (1, ("x").data) ∧
    rpp_getcontroller (("x").data) 128 DnsResponse.initParseFail = (-3, ("x").data) ∧
    rpp_getcontroller (("x").data) 128 (DnsResponse.answers []) = (1, ("x").data) ∧
    rpp_getcontroller (("x").data) 128 (DnsResponse.answers
      [RecParse.ok [2, 97, 98], RecParse.bad, RecParse.ok [5, 82, 68, 69, 58, 90]])
      = (-4, ("x").data) ∧
    rpp_getcontroller (("x").data) 128 (DnsResponse.answers [RecParse.ok [2, 97, 98]])
      = (1, ("x").data) := by
  have h := rpp_getcontroller_status_taxonomy (("x").data) 128
  refine ⟨h.1, h.2.1, h.2.2.1, ?_, ?_⟩
  · exact h.2.2.2.1 [RecParse.ok [2, 97, 98]] [RecParse.ok [5, 82, 68, 69, 58, 90]]
      (by intro rec hrec
          simp only [List.mem_singleton] at hrec
          exact ⟨[2, 97, 98], hrec, by decide⟩)
  · exact h.2.2.2.2 [RecParse.ok [2, 97, 98]] (by simp)
      (by intro rec hrec
          simp only [List.mem_singleton] at hrec
          exact ⟨[2, 97, 98], hrec, by decide⟩)

/-- C10: whenever `rpp_getcontroller` returns NotFound or a hard error
(status not 0), the caller-supplied result buffer is returned completely
unmodified; consequently, in the advertise flow of `main`, after a failed
resolution the advertiser is invoked with the `rdeaddr` buffer's prior
contents. -/
theorem rpp_getcontroller_frame (result rdeaddr0 : List Char) (maxres : Int)
    (resp dns : DnsResponse) (prefixorg locpreflist preflist revdns0 : List Char)
    (env : NetEnv) :
    ((rpp_getcontroller result maxres resp).1 ≠ 0 →
      (rpp_getcontroller result maxres resp).2 = result) ∧
    ((rpp_getcontroller rdeaddr0 128 dns).1 ≠ 0 →
      (ip2revdns revdns0 128 ((prefixorg.takeWhile (fun c => c != '/')).take 127)).1 = 0 →
      (mainRun RppAction.advertise prefixorg locpreflist preflist revdns0 rdeaddr0 dns
          env).2.2 =
        (advertise_inpref_to_remote_dst env locpreflist 3600 (cstr rdeaddr0) preflist).2) := by
  constructor
  · exact rpp_getcontroller_frame_aux result maxres resp
  · intro hne hrd
    unfold mainRun
    rw [if_neg (by simp [hrd])]
    dsimp only
    rw [rpp_getcontroller_frame_aux rdeaddr0 128 dns hne]

set_option maxRecDepth 20000 in
/-- Witness for C10: a failed query leaves the buffer untouched, and the
advertiser then receives the pre-call buffer contents. -/
theorem rpp_getcontroller_frame_witness :
    (rpp_getcontroller (("stale").data) 128 DnsResponse.queryFail).2 = ("stale").data ∧
    (mainRun RppAction.advertise (("1.2.3.4").data) (("lp").data) (("pf").data)
        (List.replicate 128 'x') (("9.9.9.9").data ++ List.replicate 121 NUL)
        DnsResponse.queryFail ⟨true, true, true, true, true, true, true⟩).2.2 =
      (advertise_inpref_to_remote_dst ⟨true, true, true, true, true, true, true⟩
        (("lp").data) 3600 (cstr (("9.9.9.9").data ++ List.replicate 121 NUL))
        (("pf").data)).2 := by
  have h := rpp_getcontroller_frame (("stale").data)
    (("9.9.9.9").data ++ List.replicate 121 NUL) 128 DnsResponse.queryFail
    DnsResponse.queryFail (("1.2.3.4").data) (("lp").data) (("pf").data)
    (List.replicate 128 'x') ⟨true, true, true, true, true, true, true⟩
  exact ⟨h.1 (by decide), h.2 (by decide) (by decide)⟩

/-- C5: for every successful advertise call, the concatenation of all bytes
sent over the TCP connection — made to port 4343 — is exactly
`SETINPREF <ttl>\t<localPrefixes>\t<preferenceList>\r\n` with no extra
delimiters; against an unreachable address (connect fails) it returns the
connect-stage error -2 and sends no bytes at all. -/
theorem advertise_wire_format (env : NetEnv) (locpreflist preflist addr : List Char)
    (ttl : Int) :
    (env.socketOk = true → env.connectOk = true → env.send1Ok = true →
      env.send2Ok = true → env.send3Ok = true → env.send4Ok = true → env.send5Ok = true →
      (advertise_inpref_to_remote_dst env locpreflist ttl addr preflist).1 = 0 ∧
      NetEvent.connected addr 4343 ∈
        (advertise_inpref_to_remote_dst env locpreflist ttl addr preflist).2 ∧
      sentBytes (advertise_inpref_to_remote_dst env locpreflist ttl addr preflist).2 =
        ("SETINPREF ").data ++ intDec ttl ++ '\t' ::
          (locpreflist ++ '\t' :: (preflist ++ ['\r', '\n']))) ∧
    (env.socketOk = true → env.connectOk = false →
      (advertise_inpref_to_remote_dst env locpreflist ttl addr preflist).1 = -2 ∧
      sentBytes (advertise_inpref_to_remote_dst env locpreflist ttl addr preflist).2
        = []) := by
  constructor
  · intro h1 h2 h3 h4 h5 h6 h7
    unfold advertise_inpref_to_remote_dst
    rw [h1, h2, h3, h4, h5, h6, h7]
    simp [sentBytes, setinprefHeader]
  · intro h1 h2
    unfold advertise_inpref_to_remote_dst
    rw [h1, h2]
    simp [sentBytes]

/-- Witness for C5 with the spec's end-to-end message
`SETINPREF 3600\t192.0.2.0/24 198.51.100.0/24\t64552:0 64900:255 65001:127\r\n`. -/
theorem advertise_wire_format_witness :
    ((advertise_inpref_to_remote_dst ⟨true, true, true, true, true, true, true⟩
        (("192.0.2.0/24 198.51.100.0/24").data) 3600 (("192.0.2.55").data)
        (("64552:0 64900:255 65001:127").data)).1 = 0 ∧
      NetEvent.connected (("192.0.2.55").data) 4343 ∈
        (advertise_inpref_to_remote_dst ⟨true, true, true, true, true, true, true⟩
          (("192.0.2.0/24 198.51.100.0/24").data) 3600 (("192.0.2.55").data)
          (("64552:0 64900:255 65001:127").data)).2 ∧
      sentBytes (advertise_inpref_to_remote_dst ⟨true, true, true, true, true, true, true⟩
          (("192.0.2.0/24 198.51.100.0/24").data) 3600 (("192.0.2.55").data)
          (("64552:0 64900:255 65001:127").data)).2 =
        ("SETINPREF ").data ++ intDec 3600 ++ '\t' ::
          ((("192.0.2.0/24 198.51.100.0/24").data) ++ '\t' ::
            ((("64552:0 64900:255 65001:127").data) ++ ['\r', '\n']))) ∧
    ((advertise_inpref_to_remote_dst ⟨true, false, true, true, true, true, true⟩
        (("lp").data) 3600 (("10.0.0.1").data) (("pf").data)).1 = -2 ∧
      sentBytes (advertise_inpref_to_remote_dst ⟨true, false, true, true, true, true, true⟩
        (("lp").data) 3600 (("10.0.0.1").data) (("pf").data)).2 = []) :=
  ⟨(advertise_wire_format ⟨true, true, true, true, true, true, true⟩
      (("192.0.2.0/24 198.51.100.0/24").data) (("64552:0 64900:255 65001:127").data)
      (("192.0.2.55").data) 3600).1 rfl rfl rfl rfl rfl rfl rfl,
   (advertise_wire_format ⟨true, false, true, true, true, true, true⟩
      (("lp").data) (("pf").data) (("10.0.0.1").data) 3600).2 rfl rfl⟩

/-- C8 is a code defect: when `socket()` succeeds but `connect()` fails,
`advertise_inpref_to_remote_dst` returns -2 without ever closing the
socket — no `closed` event occurs in the trace — contradicting the
scoped-resource requirement that the socket be released on every exit
path.  (Every other exit path does close it.) -/
theorem advertise_connect_fail_no_close :
    advertise_inpref_to_remote_dst ⟨true, false, true, true, true, true, true⟩
        (("lp").data) 3600 (("192.0.2.55").data) (("pf").data) =
      (-2, [NetEvent.socketCreated, NetEvent.errorPrinted]) ∧
    NetEvent.closed ∉ [NetEvent.socketCreated, NetEvent.errorPrinted] := by
  decide

/-- C9 counterexample: with a structurally malformed DNS response (a hard
resolution error, status -3), `main` prints the DNS failure diagnostic but
exits with status 0 for the resolve action — not the claimed non-zero
status. -/
theorem mainRun_dns_error_exit_zero :
    mainRun RppAction.resolve (("1.2.3.4").data) [] [] (List.replicate 128 NUL)
        (List.replicate 128 NUL) DnsResponse.initParseFail
        ⟨true, true, true, true, true, true, true⟩ =
      (0, [OutMsg.errDnsFailure (-3)], []) := by
  decide

/-- C9 (amended): whenever a stage of a run fails, a human-readable
diagnostic is produced — `errRevdns` for reverse-name construction
failure, `errDnsFailure` for a hard DNS error, and an error print inside
the advertiser for a socket/connect/send failure — but only reverse-name
construction failure terminates the run with a non-zero exit status (1);
after a hard DNS error or an advertisement failure the process still exits
with status 0. -/
theorem mainRun_error_reporting (action : RppAction) (prefixorg locpreflist preflist
    revdns0 rdeaddr0 : List Char) (dns : DnsResponse) (env : NetEnv) :
    ((ip2revdns revdns0 128 ((prefixorg.takeWhile (fun c => c != '/')).take 127)).1 ≠ 0 →
      mainRun action prefixorg locpreflist preflist revdns0 rdeaddr0 dns env =
        (1, [OutMsg.errRevdns], [])) ∧
    ((ip2revdns revdns0 128 ((prefixorg.takeWhile (fun c => c != '/')).take 127)).1 = 0 →
      (rpp_getcontroller rdeaddr0 128 dns).1 < 0 →
      (mainRun action prefixorg locpreflist preflist revdns0 rdeaddr0 dns env).1 = 0 ∧
      OutMsg.errDnsFailure (rpp_getcontroller rdeaddr0 128 dns).1 ∈
        (mainRun action prefixorg locpreflist preflist revdns0 rdeaddr0 dns env).2.1) ∧
    ((ip2revdns revdns0 128 ((prefixorg.takeWhile (fun c => c != '/')).take 127)).1 = 0 →
      (advertise_inpref_to_remote_dst env locpreflist 3600
          (cstr (rpp_getcontroller rdeaddr0 128 dns).2) preflist).1 ≠ 0 →
      (mainRun RppAction.advertise prefixorg locpreflist preflist revdns0 rdeaddr0 dns
        env).1 = 0 ∧
      NetEvent.errorPrinted ∈
        (mainRun RppAction.advertise prefixorg locpreflist preflist revdns0 rdeaddr0 dns
          env).2.2) := by
  refine ⟨?_, ?_, ?_⟩
  · intro hrd
    unfold mainRun
    rw [if_pos hrd]
  · intro hrd hdns
    unfold mainRun
    rw [if_neg (by simp [hrd])]
    dsimp only
    cases action with
    | resolve =>
      constructor
      · rfl
      · simp only
        rw [if_neg (by omega), if_neg (by omega)]
        simp
    | advertise =>
      constructor
      · rfl
      · simp only
        rw [if_neg (by omega), if_neg (by omega)]
        simp
  · intro hrd hadv
    unfold mainRun
    rw [if_neg (by simp [hrd])]
    dsimp only
    exact ⟨rfl, advertise_err_printed env locpreflist 3600 _ preflist hadv⟩

/-- Witness for the amended C9: a malformed prefix (reverse-name failure,
exit 1), a malformed DNS response under the resolve action (diagnostic,
exit 0), and a failed connect during advertisement (error printed,
exit 0). -/
theorem mainRun_error_reporting_witness :
    mainRun RppAction.resolve (("zz").data) [] [] (List.replicate 128 NUL)
        (List.replicate 128 NUL) DnsResponse.queryFail
        ⟨true, true, true, true, true, true, true⟩ = (1, [OutMsg.errRevdns], []) ∧
    ((mainRun RppAction.resolve (("1.2.3.4").data) [] [] (List.replicate 128 NUL)
        (List.replicate 128 NUL) DnsResponse.initParseFail
        ⟨true, true, true, true, true, true, true⟩).1 = 0 ∧
      OutMsg.errDnsFailure (rpp_getcontroller (List.replicate 128 NUL) 128
          DnsResponse.initParseFail).1 ∈
        (mainRun RppAction.resolve (("1.2.3.4").data) [] [] (List.replicate 128 NUL)
          (List.replicate 128 NUL) DnsResponse.initParseFail
          ⟨true, true, true, true, true, true, true⟩).2.1) ∧
    ((mainRun RppAction.advertise (("1.2.3.4").data) [] [] (List.replicate 128 NUL)
        (List.replicate 128 NUL) DnsResponse.queryFail
        ⟨true, false, true, true, true, true, true⟩).1 = 0 ∧
      NetEvent.errorPrinted ∈
        (mainRun RppAction.advertise (("1.2.3.4").data) [] [] (List.replicate 128 NUL)
          (List.replicate 128 NUL) DnsResponse.queryFail
          ⟨true, false, true, true, true, true, true⟩).2.2) := by
  refine ⟨?_, ?_, ?_⟩
  · exact (mainRun_error_reporting RppAction.resolve (("zz").data) [] []
      (List.replicate 128 NUL) (List.replicate 128 NUL) DnsResponse.queryFail
      ⟨true, true, true, true, true, true, true⟩).1 (by decide)
  · exact (mainRun_error_reporting RppAction.resolve (("1.2.3.4").data) [] []
      (List.replicate 128 NUL) (List.replicate 128 NUL) DnsResponse.initParseFail
      ⟨true, true, true, true, true, true, true⟩).2.1 (by decide) (by decide)
  · exact (mainRun_error_reporting RppAction.advertise (("1.2.3.4").data) [] []
      (List.replicate 128 NUL) (List.replicate 128 NUL) DnsResponse.queryFail
      ⟨true, false, true, true, true, true, true⟩).2.2 (by decide) (by decide)
